import Mathlib

/-!
Verification of the table view state engine of `dioxus_ui`.

Shallow embedding of the pure state-derivation logic of the repository:
the sort engine (`src/components/table_view/use_sort.rs`), the selection
engine (`use_select.rs`), the focus engine (`use_focus.rs`,
`use_focus_fn.rs`), the pagination engine (`use_pagination.rs`), the
virtual-scroll engine (`src/components/render/use_virtual_scroll.rs`) and
the orchestrator (`use_table.rs`).  Rust `Vec<T>` becomes `List`,
`HashMap` becomes an association list with `List.lookup`, `usize` becomes
`Nat` (whose subtraction is saturating, matching `saturating_sub`), and
`f64` pixel values become `ℚ` (the settled claims exercise no rounding
behaviour).  Closures over interior-mutable signals become explicit state
passing.
-/

namespace DioxusUI

/-- Model of `SetStateAction<T>` from `src/types/setter.rs`: either a direct
value or a function of the previous state. -/
inductive SetStateAction (α : Type) where
  | value (v : α)
  | function (f : α → α)

/-- Model of `SetterUtils::to_value` from `src/types/setter.rs`. -/
def SetterUtils.toValue {α : Type} (a : SetStateAction α) (prev : α) : α :=
  match a with
  | .value v => v
  | .function f => f prev

/-- Model of `enum Order` from `src/components/table_view/use_sort.rs`. -/
inductive Order where
  | none
  | asc
  | desc
deriving DecidableEq

/-- Model of `const ORDERS: [&str; 3]` from `use_sort.rs`. -/
def ORDERS : List String := ["none", "asc", "desc"]

/-- Model of `Order::from_str` (`use_sort.rs`); Rust's `Result<_, ()>`
becomes `Option`. -/
def Order.fromStr (s : String) : Option Order :=
  if s = "asc" then some Order.asc
  else if s = "desc" then some Order.desc
  else if s = "none" then some Order.none
  else Option.none

/-- Model of `Order::to_str` (`use_sort.rs`). -/
def Order.toStr : Order → String
  | Order.none => "none"
  | Order.asc => "asc"
  | Order.desc => "desc"

/-- Model of `SortedWithIndex<T>` from `use_sort.rs`. -/
structure SortedWithIndex (α : Type) where
  data : α
  index : Nat
deriving DecidableEq

/-- Stable insertion step: `x` is placed before the first element that
compares strictly greater under `cmp`, after all earlier equal elements. -/
def insertByStable {α : Type} (cmp : α → α → Ordering) (x : α) : List α → List α
  | [] => [x]
  | y :: ys =>
    if cmp x y = Ordering.gt then y :: insertByStable cmp x ys else x :: y :: ys

/-- Stable sort by a comparator.  Models Rust's `Vec::sort_by`, which is
documented to be a stable sort; insertion sort is stable, and a stable sort's
output is determined by the comparator on the input order. -/
def sortByStable {α : Type} (cmp : α → α → Ordering) (l : List α) : List α :=
  l.foldr (insertByStable cmp) []

/-- Model of `get_sorted_with_index_fn` from `use_sort.rs` (lines 220-253):
tags the data with its raw index, then runs one stable sort pass per
`(key, order)` entry, iterating the entries list from FIRST to LAST (the
source loop `for (key, order) in sort_order_entries` does not reverse).
`order == none` passes are skipped; `desc` reverses the ascending comparator
(`Ordering::reverse` is `Ordering.swap`); a key missing from
`asc_sorter_map` is skipped. -/
def getSortedWithIndexFn {α K : Type} [DecidableEq K]
    (sortOrderEntries : List (K × Order))
    (ascSorterMap : List (K × (α → α → Ordering)))
    (data : List α) : List (SortedWithIndex α) :=
  let withIndex : List (SortedWithIndex α) :=
    data.enum.map (fun p => { data := p.2, index := p.1 })
  sortOrderEntries.foldl
    (fun acc e =>
      if e.2 = Order.none then acc
      else
        match ascSorterMap.lookup e.1 with
        | some ascSorter =>
          sortByStable
            (fun prev next =>
              let ascSortResult := ascSorter prev.data next.data
              match e.2 with
              | Order.asc => ascSortResult
              | Order.desc => ascSortResult.swap
              | Order.none => Ordering.eq)
            acc
        | Option.none => acc)
    withIndex

/-- The permutation of raw indices produced by the sort engine
(`sorted_indices` in `use_sort.rs`, line 112). -/
def sortedIndices {α K : Type} [DecidableEq K]
    (entries : List (K × Order)) (smap : List (K × (α → α → Ordering)))
    (data : List α) : List Nat :=
  (getSortedWithIndexFn entries smap data).map (·.index)

/-- Model of `get_sorted_by_indices` from `use_sort.rs` (lines 196-204):
reads the data back through the sorted index permutation. -/
def getSortedByIndices {α K : Type} [DecidableEq K]
    (entries : List (K × Order)) (smap : List (K × (α → α → Ordering)))
    (data : List α) : List α :=
  (sortedIndices entries smap data).filterMap (fun index => data.get? index)

/-- The `prev_order` extraction shared by `set_order`, `set_order_once` and
`shift_order` in `use_sort.rs`: the order of `key` in the entries list,
defaulting to `Order::None`. -/
def findOrder {K : Type} [DecidableEq K] (key : K)
    (prevOrders : List (K × Order)) : Order :=
  ((prevOrders.find? (fun kv => kv.1 == key)).map (·.2)).getD Order.none

/-- Model of the `set_order` closure from `use_sort.rs` (lines 114-139):
upserts `(key, nextOrder)` at the FRONT of the entries list, keeping every
other entry unchanged. -/
def setOrder {K : Type} [DecidableEq K] (key : K) (a : SetStateAction Order)
    (prevOrders : List (K × Order)) : List (K × Order) :=
  let prevOrder := findOrder key prevOrders
  let nextOrder := SetterUtils.toValue a prevOrder
  (key, nextOrder) :: prevOrders.filter (fun kv => !(kv.1 == key))

/-- Model of the `set_order_once` closure from `use_sort.rs` (lines 141-166):
like `setOrder` but every other entry keeps its key with order reset to
`Order::None`. -/
def setOrderOnce {K : Type} [DecidableEq K] (key : K) (a : SetStateAction Order)
    (prevOrders : List (K × Order)) : List (K × Order) :=
  let prevOrder := findOrder key prevOrders
  let nextOrder := SetterUtils.toValue a prevOrder
  (key, nextOrder) ::
    (prevOrders.filter (fun kv => !(kv.1 == key))).map (fun kv => (kv.1, Order.none))

/-- The order-value transformation inside `shift_order` (`use_sort.rs`,
lines 173-184): map the previous order to its tri-state index 0/1/2, apply
the caller's action to that index, reduce modulo `ORDERS.len()`, index into
`ORDERS` and parse with `unwrap_or(Order::None)`.  The source indexes
`ORDERS[next_index]` directly (always in bounds since `next_index < 3`);
the out-of-bounds default here is dead. -/
def shiftOrderValue (a : SetStateAction Nat) (prevOrder : Order) : Order :=
  let prevIndex : Nat :=
    match prevOrder with
    | Order.none => 0
    | Order.asc => 1
    | Order.desc => 2
  let nextIndexRaw := SetterUtils.toValue a prevIndex
  let nextIndex := nextIndexRaw % ORDERS.length
  ((ORDERS.get? nextIndex).bind Order.fromStr).getD Order.none

/-- Model of the `shift_order` closure from `use_sort.rs` (lines 168-187):
delegates to `set_order` with a function action built from
`shiftOrderValue`. -/
def shiftOrder {K : Type} [DecidableEq K] (key : K) (a : SetStateAction Nat)
    (prevOrders : List (K × Order)) : List (K × Order) :=
  setOrder key (SetStateAction.function (shiftOrderValue a)) prevOrders

/-! ## Selection engine (`src/components/table_view/use_select.rs`)

The `on_change` hook is an opaque callback that may call
`event.prevent_default()`.  It is modelled by two booleans: `hasOnChange`
(whether `on_change` is `Some`, deciding whether the hook is invoked at all)
and `hookPrevents` (whether that invocation calls `prevent_default`). -/

/-- Model of the `set_selected_ids` closure from `use_select.rs`
(lines 50-97), as a pure step on the selected-id list.  Returns the new list
together with `default_prevented`.  The next value is computed first; with
`select_many == false` it is truncated to its first element; the hook fires
only when `changeable && current != next` and `on_change` is present; if it
prevents, the signal is left at `current`. -/
def setSelectedIds (selectMany changeable hasOnChange hookPrevents : Bool)
    (current : List String) (a : SetStateAction (List String)) :
    List String × Bool :=
  let nextRaw := SetterUtils.toValue a current
  let next := if selectMany then nextRaw else nextRaw.take 1
  let shouldReturnEarly :=
    changeable && (current != next) && hasOnChange && hookPrevents
  (if shouldReturnEarly then current else next, shouldReturnEarly)

/-- The updater function that `set_by_id` passes to `set_selected_ids`
(`use_select.rs`, lines 107-130): toggles membership of `id`, inserting new
selections at the front; with `cancelable == false` an already-selected id
cannot be deselected. -/
def setByIdUpdater (cancelable : Bool) (id : String) (a : SetStateAction Bool)
    (prevs : List String) : List String :=
  let prev := prevs.contains id
  let next := SetterUtils.toValue a prev
  if prev = next then prevs
  else if !cancelable && prev then prevs
  else if next then id :: prevs
  else prevs.filter (fun it => it != id)

/-- Model of the `set_by_id` closure from `use_select.rs` (lines 100-133):
routes `setByIdUpdater` through `setSelectedIds`. -/
def setById (selectMany changeable cancelable hasOnChange hookPrevents : Bool)
    (id : String) (a : SetStateAction Bool) (current : List String) :
    List String × Bool :=
  setSelectedIds selectMany changeable hasOnChange hookPrevents current
    (SetStateAction.function (setByIdUpdater cancelable id a))

/-- Model of the `toggle_by_id` closure from `use_select.rs` (lines 152-170):
mutates the signal directly, bypassing `set_selected_ids` (and so the
`select_many` truncation and the change hook). -/
def toggleById (cancelable : Bool) (id : String) (prevIds : List String) :
    List String :=
  let prev := prevIds.contains id
  if !cancelable && prev then prevIds
  else if prev then prevIds.filter (fun it => it != id)
  else id :: prevIds

/-- Model of the `unset_all` closure from `use_select.rs` (lines 144-150). -/
def unsetAll (selectMany changeable hasOnChange hookPrevents : Bool)
    (current : List String) : List String × Bool :=
  setSelectedIds selectMany changeable hasOnChange hookPrevents current
    (SetStateAction.value [])

/-- One selection-engine operation, for reasoning about operation sequences.
The `hookPrevents` argument on the hook-guarded operations models the
`on_change` callback's behaviour at that particular call. -/
inductive SelOp where
  | setIdsOp (a : SetStateAction (List String)) (hookPrevents : Bool)
  | setByIdOp (id : String) (a : SetStateAction Bool) (hookPrevents : Bool)
  | toggleByIdOp (id : String)
  | unsetAllOp (hookPrevents : Bool)
  | initOp

/-- Whether a selection operation is the hook-bypassing `toggle_by_id`. -/
def SelOp.isToggle : SelOp → Bool
  | .toggleByIdOp _ => true
  | _ => false

/-- One step of the selection engine: dispatch a `SelOp` against the current
selected-id list.  `initIds` is the value of the `init` closure captured at
construction (`use_select.rs`, lines 135-142). -/
def selStep (selectMany changeable cancelable hasOnChange : Bool)
    (initIds : List String) (st : List String) : SelOp → List String
  | .setIdsOp a hp => (setSelectedIds selectMany changeable hasOnChange hp st a).1
  | .setByIdOp id a hp =>
    (setById selectMany changeable cancelable hasOnChange hp id a st).1
  | .toggleByIdOp id => toggleById cancelable id st
  | .unsetAllOp hp => (unsetAll selectMany changeable hasOnChange hp st).1
  | .initOp => initIds

/-- Run a sequence of selection operations from state `st`. -/
def selRun (selectMany changeable cancelable hasOnChange : Bool)
    (initIds : List String) (st : List String) (ops : List SelOp) : List String :=
  ops.foldl (selStep selectMany changeable cancelable hasOnChange initIds) st

/-! ## Focus engine (`src/components/table_view/use_focus_fn.rs`) -/

/-- The combined state touched by `focus_by_id_fn`: the focus engine's
stored id signal (`use_focus.rs`) and the selection engine's id list
(`use_select.rs`). -/
structure FocusSelectState where
  focusedId : Option String
  selectedIds : List String
deriving DecidableEq

/-- Model of `FocusByIdOptions` from `use_focus_fn.rs` (lines 20-34),
including its `Default`. -/
structure FocusByIdOptions where
  withoutScroll : Option Bool := some false
  withSelect : Option (SetStateAction Bool) := Option.none

/-- Model of the `focus_by_id_fn` closure from `use_focus_fn.rs`
(lines 225-261), returning the new combined state and the forwarded
selection's `default_prevented` flag.

`fallbackId` is the result of `get_fallbacked_id`'s render-index lookup,
used when the stored focus id is unset.  When `with_select` is not
`Value(false)` and the next id is `Some`, the source forwards a selection
update whose updater closure calls `focus_set_id` (line 247); that closure
is evaluated by `set_selected_ids` when it computes the next value
(`use_select.rs`, line 59), BEFORE the change hook runs, so the focus id
signal is already set to `nextId` even on the `default_prevented` early
return (line 253). -/
def focusByIdFn (selectMany changeable cancelable hasOnChange hookPrevents : Bool)
    (fallbackId : Option String) (st : FocusSelectState)
    (a : SetStateAction (Option String))
    (localOptions : Option FocusByIdOptions) : FocusSelectState × Bool :=
  let options := localOptions.getD {}
  let withSelect := options.withSelect.getD (SetStateAction.value (!selectMany))
  let prevId := st.focusedId.orElse (fun _ => fallbackId)
  let nextId := SetterUtils.toValue a prevId
  let withSelectIsValueFalse :=
    match withSelect with
    | SetStateAction.value false => true
    | _ => false
  if withSelectIsValueFalse then
    ({ st with focusedId := nextId }, false)
  else
    match nextId with
    | Option.none => ({ st with focusedId := Option.none }, false)
    | some nextIdStr =>
      let current := st.selectedIds
      let selectResult :=
        setById selectMany changeable cancelable hasOnChange hookPrevents
          nextIdStr withSelect current
      if selectResult.2 then
        ({ focusedId := some nextIdStr, selectedIds := current }, true)
      else
        ({ focusedId := some nextIdStr, selectedIds := selectResult.1 }, false)

/-! ## Pagination engine (`src/components/table_view/use_pagination.rs`) -/

/-- Model of `UsePaginationParams` from `use_pagination.rs`. -/
structure UsePaginationParams where
  init : Nat
  disabled : Option Nat
  focusedRenderIndex : Option Nat

/-- The derived pagination state of `use_pagination` (`use_pagination.rs`,
lines 126-135), minus the setter closures. -/
structure UsePaginationResult where
  page : Nat
  minPage : Nat
  limit : Nat
  offset : Nat
  disabled : Bool
deriving DecidableEq

/-- Model of `use_pagination` from `use_pagination.rs` (lines 78-136): the
disabled limit overrides the internal limit (which starts at `init`); a
missing focused index defaults to 0; a zero limit yields page 0 (guard, not
an error); offset is `page * limit`. -/
def usePagination (params : UsePaginationParams) : UsePaginationResult :=
  let limit := params.disabled.getD params.init
  let focusedIndex := params.focusedRenderIndex.getD 0
  let currentPage := if limit = 0 then 0 else focusedIndex / limit
  { page := currentPage
    minPage := 0
    limit := limit
    offset := currentPage * limit
    disabled := params.disabled.isSome }

/-- Model of the `max_page` closure from `use_pagination.rs`
(lines 116-124). -/
def maxPageFn (limit maxRenderIndex : Nat) : Nat :=
  if limit = 0 then 0 else maxRenderIndex / limit

/-! ## Virtual-scroll engine (`src/components/render/use_virtual_scroll.rs`)

Pixel heights (`f64` in the source) are modelled as `ℚ`; none of the settled
claims depend on floating-point rounding.  The `height_map` `HashMap` is an
association list; `values()` iteration order (used by the sample-height
search) follows the list order. -/

/-- Model of `range` from `src/function/range.rs`. -/
def range (length : Nat) : List Nat := List.range length

/-- Model of `range_from` from `src/function/range.rs`:
`(from..from + length)`. -/
def rangeFrom (length start : Nat) : List Nat :=
  (List.range length).map (· + start)

/-- Model of `AccumulatorState` from `use_virtual_scroll.rs`. -/
structure AccumulatorState where
  px : ℚ
  count : Nat
deriving DecidableEq

/-- The accumulate-until-bound loop shared by the view-offset and view-limit
computations in `use_virtual_scroll.rs` (lines 141-177): walk the index
list, adding each item's height while the accumulated height is below the
bound, stopping at the first index where it is not (the source's `break`). -/
def accumHeights (heightAt : Nat → ℚ) (bound : ℚ) :
    List Nat → AccumulatorState → AccumulatorState
  | [], acc => acc
  | i :: rest, acc =>
    if acc.px < bound then
      accumHeights heightAt bound rest { px := acc.px + heightAt i, count := acc.count + 1 }
    else acc

/-- Model of `UseVirtualScrollParams` from `use_virtual_scroll.rs`. -/
structure UseVirtualScrollParams where
  defaultContentHeightPx : ℚ
  contentLength : Nat
  overScan : Option Nat

/-- `params.over_scan.unwrap_or(5)` (`use_virtual_scroll.rs`, line 119). -/
def vsOverScan (p : UseVirtualScrollParams) : Nat :=
  p.overScan.getD 5

/-- Model of `sample_content_height_px` (`use_virtual_scroll.rs`,
lines 132-138): the first positive measured height, else the default. -/
def sampleContentHeightPx (p : UseVirtualScrollParams)
    (heightMap : List (Nat × ℚ)) : ℚ :=
  ((heightMap.map (·.2)).find? (fun h => decide (0 < h))).getD
    p.defaultContentHeightPx

/-- A single height lookup: the measured height of index `i`, else the
sample height (`height_map_read.get(&index).copied().unwrap_or(...)`). -/
def heightAt (heightMap : List (Nat × ℚ)) (sample : ℚ) (i : Nat) : ℚ :=
  (heightMap.lookup i).getD sample

/-- Model of `raw_offsets` (`use_virtual_scroll.rs`, lines 141-156): count
the whole items whose cumulative height stays below the scroll offset. -/
def rawOffsets (p : UseVirtualScrollParams) (heightMap : List (Nat × ℚ))
    (scrolledPx : ℚ) : AccumulatorState :=
  accumHeights (heightAt heightMap (sampleContentHeightPx p heightMap))
    scrolledPx (range p.contentLength) { px := 0, count := 0 }

/-- `view_offset` (`use_virtual_scroll.rs`, line 157). -/
def viewOffset (p : UseVirtualScrollParams) (heightMap : List (Nat × ℚ))
    (scrolledPx : ℚ) : Nat :=
  (rawOffsets p heightMap scrolledPx).count

/-- `render_offset = raw_offsets.count.saturating_sub(over_scan)`
(`use_virtual_scroll.rs`, line 158); `Nat` subtraction is saturating. -/
def renderOffset (p : UseVirtualScrollParams) (heightMap : List (Nat × ℚ))
    (scrolledPx : ℚ) : Nat :=
  (rawOffsets p heightMap scrolledPx).count - vsOverScan p

/-- Model of `raw_limits` (`use_virtual_scroll.rs`, lines 161-177): count
the items after the view offset that fit into the assumed viewport height
(`sample * 10`, the source's mock view height). -/
def rawLimits (p : UseVirtualScrollParams) (heightMap : List (Nat × ℚ))
    (scrolledPx : ℚ) : AccumulatorState :=
  let sample := sampleContentHeightPx p heightMap
  let viewHeight := sample * 10
  let offsetCount := (rawOffsets p heightMap scrolledPx).count
  accumHeights (heightAt heightMap sample) viewHeight
    (rangeFrom (p.contentLength - offsetCount) offsetCount) { px := 0, count := 0 }

/-- `render_limit = raw_limits.count + over_scan` (`use_virtual_scroll.rs`,
line 179). -/
def renderLimit (p : UseVirtualScrollParams) (heightMap : List (Nat × ℚ))
    (scrolledPx : ℚ) : Nat :=
  (rawLimits p heightMap scrolledPx).count + vsOverScan p

/-- Model of the `get_virtualized_fn` closure (`use_virtual_scroll.rs`,
lines 215-224): the slice `data[render_offset .. min(render_offset +
render_limit, data.len())]`, or `[]` when `render_offset` is out of
range. -/
def getVirtualized {α : Type} (p : UseVirtualScrollParams)
    (heightMap : List (Nat × ℚ)) (scrolledPx : ℚ) (data : List α) : List α :=
  let ro := renderOffset p heightMap scrolledPx
  let endIndex := min (ro + renderLimit p heightMap scrolledPx) data.length
  if ro < data.length then (data.take endIndex).drop ro else []

/-! ## Table orchestrator (`src/components/table_view/use_table.rs`) -/

/-- Model of `DataWithId<T>` from `use_table.rs` (lines 18-32). -/
structure DataWithId (α : Type) where
  get : α
  id : String
  dataIndex : Nat
  renderIndex : Option Nat
  localIndex : Option Nat
deriving DecidableEq

/-- The default `get_data_id` of `use_table` (`use_table.rs`, lines 248-250):
ignore the record and stringify the index argument. -/
def defaultGetDataId {α : Type} : α → Nat → String :=
  fun _ index => toString index

/-- Model of `sorted_data` from `use_table.rs` (lines 301-312): sort the
data through the sort engine, then build one `DataWithId` per row.  The id
is built from the SORTED position (`render_index`; the source comment reads
"Use sorted index for ID generation"); `data_index` is the position of the
first equal record in the original array
(`position(|x| x == item).unwrap_or(render_index)`). -/
def sortedData {α K : Type} [DecidableEq α] [DecidableEq K]
    (getDataId : α → Nat → String) (entries : List (K × Order))
    (smap : List (K × (α → α → Ordering))) (data : List α) :
    List (DataWithId α) :=
  let sortedItems := getSortedByIndices entries smap data
  sortedItems.enum.map (fun p =>
    { get := p.2
      id := getDataId p.2 p.1
      dataIndex := (data.findIdx? (fun x => x == p.2)).getD p.1
      renderIndex := some p.1
      localIndex := Option.none })

/-- Model of the `get_render_index_from_id` closure from `use_table.rs`
(lines 315-322): the `render_index` field of the first row with the given
id. -/
def getRenderIndexFromId {α : Type} (sorted : List (DataWithId α))
    (id : Option String) : Option Nat :=
  id.bind (fun i =>
    (sorted.find? (fun item => item.id == i)).bind (fun item => item.renderIndex))

/-- Model of the updater function that `keep_select_by_removed_ids_fn`
passes to `set_ids` (`use_table.rs`, lines 453-481): drop the removed rows
and renumber the survivors' render indices; map each previously selected id
to its surviving row, or else to the survivor now occupying its previous
render index; if nothing survives the mapping while the previous selection
and the survivor list are non-empty, fall back to the last survivor.  The
source's `removed_result.last().unwrap()` is guarded by the non-emptiness
test, so the `getLast?` `none` branch is dead. -/
def keepSelectNextIds {α : Type} (sorted : List (DataWithId α))
    (removedIds prevIds : List String) : List String :=
  let removedResult :=
    (sorted.filter (fun item => !(removedIds.contains item.id))).enum.map
      (fun p => { p.2 with renderIndex := some p.1 })
  let nextIds := prevIds.filterMap (fun i =>
    let prevRenderIndex := getRenderIndexFromId sorted (some i)
    let nextItem :=
      (removedResult.find? (fun item => item.id == i)).orElse
        (fun _ => prevRenderIndex.bind (fun index => removedResult.get? index))
    nextItem.map (fun item => item.id))
  if nextIds.isEmpty && !prevIds.isEmpty && !removedResult.isEmpty then
    match removedResult.getLast? with
    | some item => [item.id]
    | Option.none => nextIds
  else nextIds

/-- Modelled from the spec (§4.7 and §8, `keepSelectionByRemovedIds`): the
spec-side statement of the re-mapping, over the plain list of row ids in
render order.  A previously selected id that survives removal stays
selected; one that vanishes is re-mapped to its closest surviving neighbour
by position after removal, i.e. the survivor occupying its previous
position in the renumbered list; if the previous selection vanishes
entirely with no positional neighbour, the last remaining item is
selected.  Used only to compare against `keepSelectNextIds`, the
definition taken from the source. -/
def specKeepSelection (ids removedIds prevIds : List String) : List String :=
  let survivorIds := ids.filter (fun i => !(removedIds.contains i))
  let mapped := prevIds.filterMap (fun i =>
    if i ∈ survivorIds then some i
    else (ids.findIdx? (fun x => x == i)).bind (fun p => survivorIds[p]?))
  if mapped.isEmpty && !prevIds.isEmpty && !survivorIds.isEmpty then
    match survivorIds.getLast? with
    | some last => [last]
    | Option.none => mapped
  else mapped

/-! ## Theorems -/

/-- C1: the claim states that the sort engine applies its stable passes from
the LAST sort-key entry to the FIRST, making the first entry the primary
key.  The source loop (`use_sort.rs`, lines 235-250) iterates the entries
forward, so the last entry's pass runs last and dominates.  Failing input:
entries `[(k1, asc), (k2, asc)]` over records `[(1, 2), (2, 1)]` with `k1`
comparing first components and `k2` comparing second components: the engine
returns index order `[1, 0]`, the ordering of sorting by `k2` alone, while
first-key-primacy (sorting by `k1` alone) would give `[0, 1]`. -/
theorem C1_sort_forward_passes_make_last_entry_primary :
    sortedIndices [("k1", Order.asc), ("k2", Order.asc)]
      [("k1", fun a b : Nat × Nat => compare a.1 b.1),
       ("k2", fun a b : Nat × Nat => compare a.2 b.2)]
      [(1, 2), (2, 1)] = [1, 0]
  ∧ sortedIndices [("k2", Order.asc)]
      [("k1", fun a b : Nat × Nat => compare a.1 b.1),
       ("k2", fun a b : Nat × Nat => compare a.2 b.2)]
      [(1, 2), (2, 1)] = [1, 0]
  ∧ sortedIndices [("k1", Order.asc)]
      [("k1", fun a b : Nat × Nat => compare a.1 b.1),
       ("k2", fun a b : Nat × Nat => compare a.2 b.2)]
      [(1, 2), (2, 1)] = [0, 1] := by
  refine ⟨?_, ?_, ?_⟩ <;> rfl

/-- C2: the claim states that when the forwarded selection reports
`default_prevented = true`, the stored focused id is unchanged.  In the
source, the focus id is set inside the selection updater closure
(`use_focus_fn.rs`, line 247), which `set_selected_ids` evaluates before
the change hook runs (`use_select.rs`, line 59), so the focus commit
happens before the prevention check.  At the failing input (focus `"a"`,
empty selection, a hook that prevents, `focus_by_id(Value(Some "b"))` with
default options) the call reports `default_prevented = true` yet the
stored focused id has changed to `"b"`. -/
theorem C2_focus_committed_despite_default_prevented :
    focusByIdFn false true true true true Option.none
        { focusedId := some "a", selectedIds := [] }
        (SetStateAction.value (some "b")) Option.none
      = ({ focusedId := some "b", selectedIds := [] }, true)
  ∧ some "b" ≠ some "a" := by
  exact ⟨rfl, by decide⟩

/-- C3: the claim states that with `changeable = false` a `set_ids` call
leaves the selected-id list exactly as it was.  In the source
(`use_select.rs`, lines 66-91), `changeable == false` only skips the
change-hook block; `selected_ids.set(next)` still runs, so the call is not
a no-op: from the empty selection, `set_ids(Value(["a"]))` with
`changeable = false` commits `["a"]`. -/
theorem C3_changeable_false_still_commits :
    (setSelectedIds false false true true [] (SetStateAction.value ["a"])).1 = ["a"]
  ∧ (["a"] : List String) ≠ [] := by
  exact ⟨rfl, by decide⟩

/-- C4 counterexample: with `select_many = false`, starting from the empty
selection, the operation sequence `toggle_by_id("a"); toggle_by_id("b")`
leaves TWO selected ids — `toggle_by_id` (`use_select.rs`, lines 152-170)
mutates the signal directly and bypasses the single-selection truncation,
so the claimed size-at-most-1 invariant fails. -/
theorem C4_counterexample_toggle_breaks_invariant :
    selRun false true true true [] []
        [SelOp.toggleByIdOp "a", SelOp.toggleByIdOp "b"] = ["b", "a"]
  ∧ ¬ (selRun false true true true [] []
        [SelOp.toggleByIdOp "a", SelOp.toggleByIdOp "b"]).length ≤ 1 := by
  exact ⟨rfl, by decide⟩

/-- C5 counterexample: with `contentLength = 0` but the default
`over_scan = 5`, `render_limit = 0 + over_scan = 5`
(`use_virtual_scroll.rs`, line 179) and `render_offset = 0`, so
`get_virtualized` applied to the non-empty array `[7]` returns `[7]`, not
the empty list the claim states. -/
theorem C5_counterexample_zero_length_not_empty :
    getVirtualized
        { defaultContentHeightPx := 35, contentLength := 0, overScan := some 5 }
        [] 0 [7] = [7]
  ∧ ([7] : List Nat) ≠ [] := by
  exact ⟨rfl, by decide⟩

/-- C6 counterexample: with no `get_id` function and a descending sort that
swaps the two records `[10, 20]`, the view-row holding record `20` has
`dataIndex = 1` (its position in the original array) but id `"0"` — the
default id stringifies the SORTED position (`use_table.rs`, line 306,
"Use sorted index for ID generation"), not the raw index. -/
theorem C6_counterexample_id_is_sorted_index :
    ¬ ∀ r ∈ sortedData (K := String) defaultGetDataId [("k", Order.desc)]
        [("k", fun a b : Nat => compare a b)] [10, 20],
        r.id = toString r.dataIndex := by
  decide

/-- C9 counterexample: `set_order_once("a", asc)` on the two-column sort
state `[("a", asc), ("b", desc)]` produces `[("a", asc), ("b", none)]`
(`use_sort.rs`, lines 154-160 keep every other key in the list with order
`None`), not the claimed single-entry list `[("a", asc)]`. -/
theorem C9_counterexample_not_single_entry :
    setOrderOnce "a" (SetStateAction.value Order.asc)
        [("a", Order.asc), ("b", Order.desc)]
      ≠ [("a", Order.asc)] := by
  decide

/-- C7: pagination returns `page = floor(focusedRenderIndex / limit)` and
`offset = page * limit` when `limit > 0`, and `page = 0, offset = 0` when
`limit = 0` (a guard, never an error); `maxPage` divides with the same
zero-limit guard; in particular `limit = 10, focusedRenderIndex = 25`
gives `page = 2, offset = 20`. -/
theorem C7_pagination_page_offset (limit fidx maxIdx : Nat) (h : 0 < limit) :
    (usePagination ⟨limit, Option.none, some fidx⟩).page = fidx / limit
  ∧ (usePagination ⟨limit, Option.none, some fidx⟩).offset = (fidx / limit) * limit
  ∧ (usePagination ⟨0, Option.none, some fidx⟩).page = 0
  ∧ (usePagination ⟨0, Option.none, some fidx⟩).offset = 0
  ∧ maxPageFn limit maxIdx = maxIdx / limit
  ∧ maxPageFn 0 maxIdx = 0
  ∧ (usePagination ⟨10, Option.none, some 25⟩).page = 2
  ∧ (usePagination ⟨10, Option.none, some 25⟩).offset = 20 := by
  have h' : limit ≠ 0 := Nat.pos_iff_ne_zero.mp h
  refine ⟨?_, ?_, ?_, ?_, ?_, ?_, ?_, ?_⟩ <;>
    simp [usePagination, maxPageFn, h']

/-- C7 witness: the theorem instantiated at `limit = 10`,
`focusedRenderIndex = 25`, `maxIdx = 100`. -/
theorem C7_pagination_page_offset_witness :
    0 < 10
  ∧ (usePagination ⟨10, Option.none, some 25⟩).page = 25 / 10 :=
  ⟨by decide, (C7_pagination_page_offset 10 25 100 (by decide)).1⟩

/-- Helper: looking up `key` right after `setOrder key a` yields the value
the action produced from the previous order, since `setOrder` places
`(key, nextOrder)` at the head of the entries list. -/
theorem findOrder_setOrder_self {K : Type} [DecidableEq K] (key : K)
    (a : SetStateAction Order) (prev : List (K × Order)) :
    findOrder key (setOrder key a prev)
      = SetterUtils.toValue a (findOrder key prev) := by
  simp [setOrder, findOrder]

/-- C10: `shift_order` cycles a column's order through
`none → asc → desc → none`: from a state where the column's order is
`none`, three successive shift steps, each advancing the numeric tri-state
index by one, pass through `asc` and `desc` and return the column's order
to `none`. -/
theorem C10_shift_order_cycles {K : Type} [DecidableEq K] (key : K)
    (prev : List (K × Order)) (h : findOrder key prev = Order.none) :
    findOrder key
        (shiftOrder key (SetStateAction.function (fun n => n + 1)) prev)
      = Order.asc
  ∧ findOrder key
        (shiftOrder key (SetStateAction.function (fun n => n + 1))
          (shiftOrder key (SetStateAction.function (fun n => n + 1)) prev))
      = Order.desc
  ∧ findOrder key
        (shiftOrder key (SetStateAction.function (fun n => n + 1))
          (shiftOrder key (SetStateAction.function (fun n => n + 1))
            (shiftOrder key (SetStateAction.function (fun n => n + 1)) prev)))
      = Order.none := by
  have h1 : findOrder key
      (shiftOrder key (SetStateAction.function (fun n => n + 1)) prev)
      = Order.asc := by
    rw [shiftOrder, findOrder_setOrder_self, h]; rfl
  have h2 : findOrder key
      (shiftOrder key (SetStateAction.function (fun n => n + 1))
        (shiftOrder key (SetStateAction.function (fun n => n + 1)) prev))
      = Order.desc := by
    rw [shiftOrder, findOrder_setOrder_self, h1]; rfl
  have h3 : findOrder key
      (shiftOrder key (SetStateAction.function (fun n => n + 1))
        (shiftOrder key (SetStateAction.function (fun n => n + 1))
          (shiftOrder key (SetStateAction.function (fun n => n + 1)) prev)))
      = Order.none := by
    rw [shiftOrder, findOrder_setOrder_self, h2]; rfl
  exact ⟨h1, h2, h3⟩

/-- Helper: with `select_many = false`, one `set_selected_ids` call keeps
the selected-id list at size at most 1, since the committed value is either
the unchanged previous list or the truncation `next_raw.take(1)`. -/
theorem setSelectedIds_length_le_one (changeable hasOnChange hookPrevents : Bool)
    (current : List String) (a : SetStateAction (List String))
    (h : current.length ≤ 1) :
    (setSelectedIds false changeable hasOnChange hookPrevents current a).1.length ≤ 1 := by
  unfold setSelectedIds
  simp only [Bool.false_eq_true, if_false]
  split
  · exact h
  · exact List.length_take_le 1 _

/-- C4 amended: with `select_many = false`, the size-at-most-1 invariant
holds for every operation sequence built from `set_ids`, `set_by_id`,
`unset_all` and `init` — that is, every operation except the
`toggle_by_id` bypass — starting from an initial selection of size at
most 1. -/
theorem C4_invariant_without_toggle (changeable cancelable hasOnChange : Bool)
    (initIds st : List String) (ops : List SelOp)
    (hinit : initIds.length ≤ 1) (hst : st.length ≤ 1)
    (hops : ops.all (fun op => !op.isToggle) = true) :
    (selRun false changeable cancelable hasOnChange initIds st ops).length ≤ 1 := by
  induction ops generalizing st with
  | nil => simpa [selRun] using hst
  | cons op rest ih =>
    rw [List.all_cons, Bool.and_eq_true] at hops
    have hstep :
        (selStep false changeable cancelable hasOnChange initIds st op).length ≤ 1 := by
      cases op with
      | setIdsOp a hp =>
        exact setSelectedIds_length_le_one changeable hasOnChange hp st a hst
      | setByIdOp id a hp =>
        exact setSelectedIds_length_le_one changeable hasOnChange hp st _ hst
      | toggleByIdOp id => simp [SelOp.isToggle] at hops
      | unsetAllOp hp =>
        exact setSelectedIds_length_le_one changeable hasOnChange hp st _ hst
      | initOp => exact hinit
    exact ih _ hstep hops.2

/-- C4 witness: the amended invariant applied to the sequence
`set_ids(Value(["a", "b"]))` from the empty selection. -/
theorem C4_invariant_without_toggle_witness :
    ([] : List String).length ≤ 1
  ∧ ([SelOp.setIdsOp (SetStateAction.value ["a", "b"]) false].all
      (fun op => !op.isToggle) = true)
  ∧ (selRun false true true true [] []
      [SelOp.setIdsOp (SetStateAction.value ["a", "b"]) false]).length ≤ 1 :=
  ⟨by decide, by decide,
    C4_invariant_without_toggle true true true [] [] _ (by decide) (by decide)
      (by decide)⟩

/-- C5 amended: with `contentLength = 0`, `render_offset` is 0 and
`render_limit` equals `over_scan`, so `getVirtualized(data)` returns the
first `min(over_scan, data.len())` elements of `data` for every input
array, height map and scroll offset; it is the empty list exactly when
`data` is empty or `over_scan = 0`. -/
theorem C5_zero_length_returns_overscan_prefix {α : Type}
    (p : UseVirtualScrollParams) (heightMap : List (Nat × ℚ))
    (scrolledPx : ℚ) (data : List α) (h : p.contentLength = 0) :
    getVirtualized p heightMap scrolledPx data = data.take (vsOverScan p) := by
  have hro : renderOffset p heightMap scrolledPx = 0 := by
    simp [renderOffset, rawOffsets, h, range, accumHeights]
  have hrl : renderLimit p heightMap scrolledPx = vsOverScan p := by
    simp [renderLimit, rawLimits, rawOffsets, h, range, rangeFrom, accumHeights]
  unfold getVirtualized
  rw [hro, hrl]
  by_cases hd : 0 < data.length
  · simp only [hd, if_pos, Nat.zero_add, List.drop_zero]
    by_cases hos : vsOverScan p ≤ data.length
    · rw [min_eq_left hos]
    · rw [min_eq_right (le_of_not_le hos),
        List.take_of_length_le (le_refl _),
        List.take_of_length_le (le_of_not_le hos)]
  · rw [if_neg hd]
    have hnil : data = [] := List.length_eq_zero.mp (Nat.eq_zero_of_not_pos hd)
    rw [hnil, List.take_nil]

/-- C5 witness: the amended statement evaluated at `contentLength = 0`,
`over_scan = 5` and the two-element array `[7, 8]`. -/
theorem C5_zero_length_returns_overscan_prefix_witness :
    ((⟨35, 0, some 5⟩ : UseVirtualScrollParams).contentLength = 0)
  ∧ getVirtualized (⟨35, 0, some 5⟩ : UseVirtualScrollParams) [] 0 [7, 8]
    = ([7, 8] : List Nat).take (vsOverScan (⟨35, 0, some 5⟩ : UseVirtualScrollParams)) :=
  ⟨rfl,
    C5_zero_length_returns_overscan_prefix
      (⟨35, 0, some 5⟩ : UseVirtualScrollParams) [] 0 [7, 8] rfl⟩

/-- C6 amended: with no `get_id` function, each view-row's id equals the
stringified RENDER index — its position in the sorted sequence
(`use_table.rs`, line 306 passes the sorted position to `get_data_id`) —
which coincides with the raw index only when the active sort does not
permute the data. -/
theorem C6_default_id_is_render_index {α K : Type} [DecidableEq α] [DecidableEq K]
    (entries : List (K × Order)) (smap : List (K × (α → α → Ordering)))
    (data : List α) (i : Nat) (r : DataWithId α)
    (h : (sortedData defaultGetDataId entries smap data)[i]? = some r) :
    r.id = toString i ∧ r.renderIndex = some i := by
  unfold sortedData at h
  rw [List.getElem?_map, List.getElem?_enum] at h
  cases hx : (getSortedByIndices entries smap data)[i]? with
  | none => rw [hx] at h; simp at h
  | some item =>
    rw [hx] at h
    simp only [Option.map_some'] at h
    cases h
    exact ⟨rfl, rfl⟩

/-- C6 witness: the amended statement at the descending-sorted two-element
array `[10, 20]`, whose first view-row holds record `20` with id `"0"`. -/
theorem C6_default_id_is_render_index_witness :
    ((sortedData (K := String) defaultGetDataId [("k", Order.desc)]
        [("k", fun a b : Nat => compare a b)] [10, 20])[0]?
      = some (⟨20, "0", 1, some 0, Option.none⟩ : DataWithId Nat))
  ∧ ((⟨20, "0", 1, some 0, Option.none⟩ : DataWithId Nat)).id = toString 0 :=
  ⟨by decide,
    (C6_default_id_is_render_index [("k", Order.desc)]
      [("k", fun a b : Nat => compare a b)] [10, 20] 0 _ (by decide)).1⟩

/-- C9 amended: `set_order_once(k, asc)` puts `(k, asc)` at the head of the
sort state and keeps every OTHER previously present key in the list with
its order reset to `none`; the state equals the single-entry list
`[(k, asc)]` only when no other key was present. -/
theorem C9_set_order_once_resets_others {K : Type} [DecidableEq K]
    (key : K) (prev : List (K × Order)) :
    (setOrderOnce key (SetStateAction.value Order.asc) prev).map Prod.fst
      = key :: (prev.map Prod.fst).filter (fun k => !(k == key))
  ∧ ∀ kv ∈ setOrderOnce key (SetStateAction.value Order.asc) prev,
      kv.2 = if kv.1 = key then Order.asc else Order.none := by
  constructor
  · have htail : ((prev.filter (fun kv => !(kv.1 == key))).map
        (fun kv => ((kv.1, Order.none) : K × Order))).map Prod.fst
        = (prev.map Prod.fst).filter (fun k => !(k == key)) := by
      induction prev with
      | nil => rfl
      | cons kv rest ih =>
        by_cases hk : (kv.1 == key) = true
        · simp only [List.filter_cons, List.map_cons, hk, Bool.not_true,
            Bool.false_eq_true, if_false]
          exact ih
        · have hk' : (!(kv.1 == key)) = true := by
            simp only [Bool.not_eq_true'] at *
            simpa using hk
          simp only [List.filter_cons, List.map_cons, hk', if_true]
          rw [ih]
    unfold setOrderOnce
    dsimp only
    rw [List.map_cons, htail]
  · intro kv hkv
    unfold setOrderOnce at hkv
    dsimp only at hkv
    rcases List.mem_cons.mp hkv with hhead | htail
    · rw [hhead]; simp [SetterUtils.toValue]
    · rcases List.mem_map.mp htail with ⟨orig, horig, heq⟩
      have hne : ¬ orig.1 = key := by
        have := (List.mem_filter.mp horig).2
        simpa using this
      rw [← heq]
      simp [hne]

/-- C9 amended witness: the statement at key `"a"` over the two-column
state `[("a", asc), ("b", desc)]`, checked at the member `("b", none)`. -/
theorem C9_set_order_once_resets_others_witness :
    (setOrderOnce "a" (SetStateAction.value Order.asc)
        [("a", Order.asc), ("b", Order.desc)]).map Prod.fst = ["a", "b"]
  ∧ (("b", Order.none) : String × Order).2
      = if ("b" : String) = "a" then Order.asc else Order.none :=
  ⟨by
    rw [(C9_set_order_once_resets_others "a"
      [("a", Order.asc), ("b", Order.desc)]).1]
    decide,
  (C9_set_order_once_resets_others "a"
      [("a", Order.asc), ("b", Order.desc)]).2 ("b", Order.none) (by decide)⟩

/-- Helper: `Option.map` distributes over `Option.orElse`. -/
theorem option_map_orElse {α β : Type} (f : α → β) (a : Option α)
    (b : Unit → Option α) :
    (a.orElse b).map f = (a.map f).orElse (fun _ => (b ()).map f) := by
  cases a <;> rfl

/-- Helper: `Option.map` commutes with `Option.bind`. -/
theorem option_map_bind {α β γ : Type} (g : β → γ) (o : Option α)
    (f : α → Option β) :
    (o.bind f).map g = o.bind (fun x => (f x).map g) := by
  cases o <;> rfl

/-- Helper: element lookup in an enumerate-then-map list. -/
theorem getElem?_enum_map {α β : Type} (f : Nat × α → β) (l : List α) (i : Nat) :
    (l.enum.map f)[i]? = (l[i]?).map (fun a => f (i, a)) := by
  rw [List.getElem?_map, List.getElem?_enum, Option.map_map]
  rfl

/-- Helper: the renumbering pass of `keep_select_by_removed_ids` does not
change row ids. -/
theorem ids_enum_renumber {α : Type} (l : List (DataWithId α)) :
    ((l.enum.map (fun p => { p.2 with renderIndex := some p.1 })).map
        (fun item => item.id))
      = l.map (fun item => item.id) := by
  rw [List.map_map]
  have h2 : (l.enum.map
      ((fun item => item.id) ∘ (fun p : Nat × DataWithId α =>
        { p.2 with renderIndex := some p.1 })))
      = (l.enum.map Prod.snd).map (fun item => item.id) := by
    rw [List.map_map]; rfl
  rw [h2, List.enum_map_snd]

/-- Helper: filtering rows by a predicate on their id, then projecting to
ids, equals projecting first and filtering the ids. -/
theorem map_id_filter {α : Type} (removed : List String)
    (l : List (DataWithId α)) :
    ((l.filter (fun item => !(removed.contains item.id))).map
        (fun item => item.id))
      = (l.map (fun item => item.id)).filter (fun s => !(removed.contains s)) := by
  induction l with
  | nil => rfl
  | cons x xs ih =>
    by_cases hx : removed.contains x.id = true
    · simp only [List.filter_cons, List.map_cons, hx, Bool.not_true,
        Bool.false_eq_true, if_false]
      exact ih
    · have hx' : (!(removed.contains x.id)) = true := by
        simpa using hx
      simp only [List.filter_cons, List.map_cons, hx', if_true, List.map_cons]
      rw [ih]

/-- Helper: searching a row list for a given id and projecting the hit to
its id yields the id itself exactly when some row carries it. -/
theorem find?_id_eq_mem {α : Type} (c : String) (l : List (DataWithId α)) :
    ((l.find? (fun item => item.id == c)).map (fun item => item.id))
      = if c ∈ l.map (fun item => item.id) then some c else Option.none := by
  induction l with
  | nil => simp
  | cons x xs ih =>
    by_cases hx : (x.id == c) = true
    · have hxc : x.id = c := eq_of_beq hx
      rw [List.find?_cons_of_pos (p := fun item => item.id == c) xs hx]
      simp [hxc]
    · have hxc : ¬ x.id = c := by simpa using hx
      rw [List.find?_cons_of_neg (p := fun item => item.id == c) xs
        (by simpa using hx)]
      rw [ih]
      have hmem : (c ∈ (x :: xs).map (fun item => item.id))
          ↔ (c ∈ xs.map (fun item => item.id)) := by
        simp only [List.map_cons, List.mem_cons]
        constructor
        · rintro (h | h)
          · exact absurd h.symm hxc
          · exact h
        · exact fun h => Or.inr h
      by_cases hc : c ∈ xs.map (fun item => item.id)
      · rw [if_pos hc, if_pos (hmem.mpr hc)]
      · rw [if_neg hc, if_neg (fun h => hc (hmem.mp h))]

/-- Helper: on a row list whose `renderIndex` fields are canonical with
offset `k` (the row at position `i` stores render index `i + k`), the
find-then-project-render-index lookup of `get_render_index_from_id` equals
the positional index of the id, shifted by `k`. -/
theorem find_renderIndex_eq_findIdx {α : Type} (c : String) :
    ∀ (k : Nat) (l : List (DataWithId α)),
      (∀ i r, l[i]? = some r → r.renderIndex = some (i + k)) →
      ((l.find? (fun item => item.id == c)).bind (fun item => item.renderIndex))
        = ((l.map (fun item => item.id)).findIdx? (fun x => x == c)).map (· + k) := by
  intro k l
  induction l generalizing k with
  | nil => intro _; rfl
  | cons x xs ih =>
    intro hc
    have h0 : x.renderIndex = some k := by
      have := hc 0 x (by simp)
      simpa using this
    by_cases hx : (x.id == c) = true
    · rw [List.find?_cons_of_pos (p := fun item => item.id == c) xs hx]
      simp only [List.map_cons, List.findIdx?_cons, hx, if_true,
        Option.bind_some, Option.map_some']
      simpa using h0
    · rw [List.find?_cons_of_neg (p := fun item => item.id == c) xs
        (by simpa using hx)]
      have hc' : ∀ i r, xs[i]? = some r → r.renderIndex = some (i + (k + 1)) := by
        intro i r h
        have := hc (i + 1) r (by simpa using h)
        rw [this]
        congr 1
        omega
      rw [ih (k + 1) hc']
      simp only [List.map_cons, List.findIdx?_cons, hx, Bool.false_eq_true,
        if_false, List.findIdx?_succ, Option.map_map]
      congr 1
      funext n
      simp only [Function.comp]
      omega

/-- Helper: the rows built by `sortedData` carry their own position as
`renderIndex`. -/
theorem sortedData_renderIndex {α K : Type} [DecidableEq α] [DecidableEq K]
    (g : α → Nat → String) (entries : List (K × Order))
    (smap : List (K × (α → α → Ordering))) (data : List α) (i : Nat)
    (r : DataWithId α) (h : (sortedData g entries smap data)[i]? = some r) :
    r.renderIndex = some i := by
  unfold sortedData at h
  rw [List.getElem?_map, List.getElem?_enum] at h
  cases hx : (getSortedByIndices entries smap data)[i]? with
  | none => rw [hx] at h; simp at h
  | some item =>
    rw [hx] at h
    simp only [Option.map_some'] at h
    cases h
    rfl

/-- Helper: on a row list whose `renderIndex` fields are canonical (the row
at position `i` stores render index `i`), the `get_render_index_from_id`
lookup equals the positional index of the id in the projected id list. -/
theorem getRenderIndexFromId_eq_findIdx {α : Type}
    (sorted : List (DataWithId α))
    (hc : ∀ (i : Nat) (r : DataWithId α), sorted[i]? = some r →
      r.renderIndex = some i) (c : String) :
    getRenderIndexFromId sorted (some c)
      = (sorted.map (fun item => item.id)).findIdx? (fun x => x == c) := by
  have hc' : ∀ (i : Nat) (r : DataWithId α), sorted[i]? = some r →
      r.renderIndex = some (i + 0) := by
    intro i r h
    rw [hc i r h, Nat.add_zero]
  have hmain := find_renderIndex_eq_findIdx c 0 sorted hc'
  have hzero : ∀ o : Option Nat, o.map (· + 0) = o := by
    intro o; cases o <;> simp
  calc getRenderIndexFromId sorted (some c)
      = (sorted.find? (fun item => item.id == c)).bind
          (fun item => item.renderIndex) := rfl
    _ = ((sorted.map (fun item => item.id)).findIdx? (fun x => x == c)).map
          (· + 0) := hmain
    _ = (sorted.map (fun item => item.id)).findIdx? (fun x => x == c) :=
          hzero _

/-- Helper: `isEmpty` is invariant under `map`. -/
theorem isEmpty_map {α β : Type} (f : α → β) (l : List α) :
    (l.map f).isEmpty = l.isEmpty := by
  cases l <;> rfl

/-- Helper bridge for the keep-selection proof: the source-shaped
computation over a row list `R` with an index lookup `idxOf1` equals the
spec-shaped computation over an id list `S`, provided `S` is the id
projection of `R` and the two index lookups agree. -/
theorem keepSelect_core_eq {α : Type} (R : List (DataWithId α))
    (S : List String) (idxOf1 idxOf2 : String → Option Nat)
    (prevIds : List String)
    (hRS : R.map (fun item => item.id) = S)
    (hidx : ∀ c, idxOf1 c = idxOf2 c) :
    (if (prevIds.filterMap (fun c =>
          ((R.find? (fun item => item.id == c)).orElse
            (fun _ => (idxOf1 c).bind (fun index => R.get? index))).map
              (fun item => item.id))).isEmpty
        && !prevIds.isEmpty && !R.isEmpty then
      match R.getLast? with
      | some item => [item.id]
      | Option.none => prevIds.filterMap (fun c =>
          ((R.find? (fun item => item.id == c)).orElse
            (fun _ => (idxOf1 c).bind (fun index => R.get? index))).map
              (fun item => item.id))
    else prevIds.filterMap (fun c =>
        ((R.find? (fun item => item.id == c)).orElse
          (fun _ => (idxOf1 c).bind (fun index => R.get? index))).map
            (fun item => item.id)))
    = (if (prevIds.filterMap (fun c =>
          if c ∈ S then some c else (idxOf2 c).bind (fun p => S[p]?))).isEmpty
        && !prevIds.isEmpty && !S.isEmpty then
      match S.getLast? with
      | some last => [last]
      | Option.none => prevIds.filterMap (fun c =>
          if c ∈ S then some c else (idxOf2 c).bind (fun p => S[p]?))
    else prevIds.filterMap (fun c =>
        if c ∈ S then some c else (idxOf2 c).bind (fun p => S[p]?))) := by
  have hone : ∀ c,
      ((R.find? (fun item => item.id == c)).orElse
        (fun _ => (idxOf1 c).bind (fun index => R.get? index))).map
          (fun item => item.id)
      = (if c ∈ S then some c else (idxOf2 c).bind (fun p => S[p]?)) := by
    intro c
    rw [option_map_orElse, find?_id_eq_mem, hRS, hidx]
    have hbind : (((idxOf2 c).bind (fun index => R.get? index)).map
          (fun item => item.id))
        = (idxOf2 c).bind (fun p => S[p]?) := by
      rw [option_map_bind]
      refine congrArg _ (funext (fun p => ?_))
      rw [List.get?_eq_getElem?, ← List.getElem?_map, hRS]
    rw [hbind]
    by_cases hmem : c ∈ S
    · rw [if_pos hmem, if_pos hmem]
      rfl
    · rw [if_neg hmem, if_neg hmem]
      rfl
  have hmap : prevIds.filterMap (fun c =>
        ((R.find? (fun item => item.id == c)).orElse
          (fun _ => (idxOf1 c).bind (fun index => R.get? index))).map
            (fun item => item.id))
      = prevIds.filterMap (fun c =>
          if c ∈ S then some c else (idxOf2 c).bind (fun p => S[p]?)) :=
    List.filterMap_congr (fun c _ => hone c)
  have hempty : R.isEmpty = S.isEmpty := by
    rw [← hRS, isEmpty_map]
  rw [hmap, hempty]
  cases hR : R.getLast? with
  | none =>
    have hS : S.getLast? = Option.none := by
      rw [← hRS, List.getLast?_map, hR]
      rfl
    rw [hS]
  | some item =>
    have hS : S.getLast? = some item.id := by
      rw [← hRS, List.getLast?_map, hR]
      rfl
    rw [hS]

/-- Helper: on a row list with canonical `renderIndex` fields, the
keep-selection updater from the source coincides with the spec-side
re-mapping over the plain id list. -/
theorem keepSelect_eq_spec_of_canonical {α : Type}
    (sorted : List (DataWithId α))
    (hc : ∀ (i : Nat) (r : DataWithId α), sorted[i]? = some r →
      r.renderIndex = some i)
    (removedIds prevIds : List String) :
    keepSelectNextIds sorted removedIds prevIds
      = specKeepSelection (sorted.map (fun item => item.id)) removedIds prevIds := by
  have hids :
      (((sorted.filter (fun item => !(removedIds.contains item.id))).enum.map
          (fun p => { p.2 with renderIndex := some p.1 })).map
            (fun item => item.id))
        = (sorted.map (fun item => item.id)).filter
            (fun s => !(removedIds.contains s)) := by
    rw [ids_enum_renumber, map_id_filter]
  have hfilter :
      (sorted.map (fun item => item.id)).filter
          (fun s => !(removedIds.contains s))
        = (sorted.map (fun item => item.id)).filter
            (fun i => !(removedIds.contains i)) := rfl
  exact keepSelect_core_eq
    ((sorted.filter (fun item => !(removedIds.contains item.id))).enum.map
      (fun p => { p.2 with renderIndex := some p.1 }))
    ((sorted.map (fun item => item.id)).filter
      (fun i => !(removedIds.contains i)))
    (fun c => getRenderIndexFromId sorted (some c))
    (fun c => (sorted.map (fun item => item.id)).findIdx? (fun x => x == c))
    prevIds (hfilter ▸ hids)
    (fun c => getRenderIndexFromId_eq_findIdx sorted hc c)

/-- C8: the keep-selection updater of `keep_select_by_removed_ids`
coincides, on every orchestrator row list, with the spec-side re-mapping:
surviving selected ids stay selected, a vanished id is re-mapped to its
closest surviving neighbour by position after removal (the survivor now at
its previous render position), and when the previous selection vanishes
entirely with no positional neighbour, the last remaining row is selected.
In particular, on a 3-row table with ids `"0"`, `"1"`, `"2"` where only
row `"2"` is selected, removing it selects `"1"` — the last remaining
row. -/
theorem C8_keep_selection_matches_spec {α K : Type} [DecidableEq α]
    [DecidableEq K] (g : α → Nat → String) (entries : List (K × Order))
    (smap : List (K × (α → α → Ordering))) (data : List α)
    (removedIds prevIds : List String) :
    keepSelectNextIds (sortedData g entries smap data) removedIds prevIds
      = specKeepSelection
          ((sortedData g entries smap data).map (fun item => item.id))
          removedIds prevIds
  ∧ keepSelectNextIds
        (sortedData (α := Nat) (K := String) defaultGetDataId [] []
          [10, 20, 30]) ["2"] ["2"] = ["1"]
  ∧ ((sortedData (α := Nat) (K := String) defaultGetDataId [] []
        [10, 20, 30]).map (fun item => item.id)).filter
          (fun i => !(["2"].contains i))
      = ["0", "1"] := by
  refine ⟨?_, by decide, by decide⟩
  exact keepSelect_eq_spec_of_canonical (sortedData g entries smap data)
    (fun i r h => sortedData_renderIndex g entries smap data i r h)
    removedIds prevIds

/-- C10 witness: the cycle theorem instantiated at the empty sort state and
key `"a"` (whose order is `none` there). -/
theorem C10_shift_order_cycles_witness :
    findOrder "a" ([] : List (String × Order)) = Order.none
  ∧ findOrder "a"
        (shiftOrder "a" (SetStateAction.function (fun n => n + 1))
          (shiftOrder "a" (SetStateAction.function (fun n => n + 1))
            (shiftOrder "a" (SetStateAction.function (fun n => n + 1))
              ([] : List (String × Order)))))
      = Order.none :=
  ⟨by decide, (C10_shift_order_cycles "a" [] (by decide)).2.2⟩

end DioxusUI
